import Mathlib

/-
Shallow embedding of the collab storefront repository's two algorithmic
modules: the collection filter/sort parameter translator
(src/app/routes/($lang).collections.$collectionHandle.tsx) and the
paginated review aggregator / recommended-product merge
(src/app/routes/($lang).products.$productHandle.tsx).

JavaScript numbers are modelled as exact rationals; the platform builtins
the code calls (Number(), toFixed, String(), split, includes) are modelled
below on that rational domain, restricted to plain decimal literals, which
is the only shape these routes feed them.
-/

/-! ## Executable rational arithmetic

The standard `ℚ` operations do not reduce inside the kernel, so the
embedding computes with `mkRat`/`Rat.divInt` directly; the bridge lemmas
below identify these operations with the ordinary field operations. -/

/-- The rational n/1, built so that it evaluates. -/
def ratOfNat (n : ℕ) : ℚ := mkRat (n : ℤ) 1

/-- Evaluating negation on rationals. -/
def ratNeg (a : ℚ) : ℚ := mkRat (-a.num) a.den

/-- Evaluating multiplication on rationals. -/
def ratMul (a b : ℚ) : ℚ := mkRat (a.num * b.num) (a.den * b.den)

/-- Evaluating addition on rationals. -/
def ratAdd (a b : ℚ) : ℚ := mkRat (a.num * (b.den : ℤ) + b.num * (a.den : ℤ)) (a.den * b.den)

/-- Evaluating division on rationals. -/
def ratDiv (a b : ℚ) : ℚ := Rat.divInt (a.num * (b.den : ℤ)) (b.num * (a.den : ℤ))

/-! ## Models of the JavaScript platform builtins used by the routes -/

/-- Value of a list of decimal digit characters, most significant first. -/
def digitsVal (cs : List Char) : ℕ :=
  cs.foldl (fun a c => a * 10 + (c.toNat - 48)) 0

/-- Model of ECMAScript ToNumber on a string: surrounding spaces are
trimmed, the empty string is 0, an optional sign followed by decimal
digits with an optional fraction is a decimal literal, and anything else
is NaN (`none`).  Hex/exponent/Infinity forms never reach this code. -/
def jsParseNumber (s : String) : Option ℚ :=
  let cs := ((s.data.dropWhile (fun c => c == ' ')).reverse.dropWhile
    (fun c => c == ' ')).reverse
  if cs.isEmpty then some 0
  else
    let signNeg : Bool := cs.headD ' ' == '-'
    let body := if cs.headD ' ' == '-' || cs.headD ' ' == '+' then cs.tail else cs
    let intPart := body.takeWhile Char.isDigit
    let rest := body.dropWhile Char.isDigit
    let sign : ℚ := if signNeg then ratNeg (ratOfNat 1) else ratOfNat 1
    match rest with
    | [] =>
      if intPart.isEmpty then none
      else some (ratMul sign (ratOfNat (digitsVal intPart)))
    | c :: frac =>
      if c == '.' && frac.all Char.isDigit && !(intPart.isEmpty && frac.isEmpty) then
        some (ratMul sign
          (ratAdd (ratOfNat (digitsVal intPart)) (mkRat (digitsVal frac) (10 ^ frac.length))))
      else none

/-- Model of the JavaScript idiom `Number(s) || 0`: NaN and 0 (both falsy)
collapse to 0, every other parse is kept, negative values included. -/
def jsNumberOrZero (s : String) : ℚ :=
  (jsParseNumber s).getD 0

/-- Left-pad the digits of a string with zeros up to width `k`. -/
def padZeros (s : String) (k : ℕ) : String :=
  ⟨List.replicate (k - s.data.length) '0' ++ s.data⟩

/-- Model of ECMAScript String() on a nonnegative number whose exact value
has a terminating decimal expansion (every value produced by
`jsNumberOrZero` does): integer part, then a dot and the minimal run of
fraction digits when there is a fraction. -/
def jsNumToStringAux (q : ℚ) : String :=
  match (List.range 100).find? (fun k => (ratMul q (ratOfNat (10 ^ k))).den == 1) with
  | some k =>
    let m := (ratMul q (ratOfNat (10 ^ k))).num.toNat
    if k = 0 then toString m
    else toString (m / 10 ^ k) ++ "." ++ padZeros (toString (m % 10 ^ k)) k
  | none => "0"

/-- Model of ECMAScript String() on a number (template-literal coercion). -/
def jsNumToString (q : ℚ) : String :=
  if q < 0 then "-" ++ jsNumToStringAux (-q) else jsNumToStringAux q

/-- Floor of a rational, computed directly on its numerator/denominator. -/
def ratFloor (q : ℚ) : ℤ :=
  q.num.fdiv (q.den : ℤ)

/-- Two-digit zero-padded rendering of a natural below 100. -/
def pad2 (m : ℕ) : String :=
  if m < 10 then "0" ++ toString m else toString m

/-- Model of ECMAScript Number.prototype.toFixed(2) on an exact rational:
the integer n closest to q*100 (ties to the larger n) is rendered with
exactly two fraction digits. -/
def jsToFixed2 (q : ℚ) : String :=
  let n : ℤ := ratFloor (ratAdd (ratMul q (ratOfNat 100)) (mkRat 1 2))
  if n < 0 then
    "-" ++ toString ((-n).toNat / 100) ++ "." ++ pad2 ((-n).toNat % 100)
  else
    toString (n.toNat / 100) ++ "." ++ pad2 (n.toNat % 100)

/-- Whether the first character list is a prefix of the second. -/
def startsWithChars : List Char → List Char → Bool
  | [], _ => true
  | _ :: _, [] => false
  | a :: as, b :: bs => a == b && startsWithChars as bs

/-- Model of String.prototype.includes: the pattern occurs somewhere in
the text. -/
def hasSubstr : List Char → List Char → Bool
  | [], sub => startsWithChars sub []
  | l@(_ :: rest), sub => startsWithChars sub l || hasSubstr rest sub

/-- Split a character list at every occurrence of the separator; the
result is always nonempty and never contains the separator. -/
def splitOnChar (c : Char) : List Char → List (List Char)
  | [] => [[]]
  | x :: xs =>
    if x = c then [] :: splitOnChar c xs
    else (x :: (splitOnChar c xs).headD []) :: (splitOnChar c xs).tail

/-- Model of String.prototype.split with a one-character separator. -/
def jsSplit (c : Char) (s : String) : List String :=
  (splitOnChar c s.data).map (fun cs => ⟨cs⟩)

/-! ## Filter/sort translator (collection route loader) -/

/-- Sort keys of the storefront catalog query. -/
inductive SortKeyT where
  | RELEVANCE
  | PRICE
  | BEST_SELLING
  | CREATED
  | MANUAL
deriving DecidableEq

/-- Sort specification derived from the sort-mode token. -/
structure SortSpec where
  sortKey : SortKeyT
  reverse : Bool
deriving DecidableEq

/-- Embedding of getSortValuesFromParam: the switch over the sort token,
one strict string comparison per case, defaulting to RELEVANCE. -/
def getSortValuesFromParam (sortParam : Option String) : SortSpec :=
  if sortParam = some ("price-high-low") then ⟨.PRICE, true⟩
  else if sortParam = some ("price-low-high") then ⟨.PRICE, false⟩
  else if sortParam = some ("best-selling") then ⟨.BEST_SELLING, false⟩
  else if sortParam = some ("newest") then ⟨.CREATED, true⟩
  else if sortParam = some ("featured") then ⟨.MANUAL, false⟩
  else ⟨.RELEVANCE, false⟩

/-- One structured filter clause pushed onto the `filters` array.  `known`
is the computed-key object `{[key]: value}`; a `variantOption` value is
`none` when the JavaScript destructuring produced `undefined`. -/
inductive FilterClause where
  | available (value : Bool)
  | known (key : String) (value : String)
  | variantOption (name : String) (value : Option String)
  | price (min max : Option ℚ)
deriving DecidableEq

/-- The urlParam payload of an applied-filter descriptor. -/
structure UrlParam where
  key : String
  value : String
deriving DecidableEq

/-- One applied-filter descriptor; the label is `none` when the code
stores JavaScript `undefined` there. -/
structure AppliedFilter where
  label : Option String
  urlParam : UrlParam
deriving DecidableEq

/-- The request query string as an ordered multi-map of parameters. -/
abbrev Params := List (String × String)

/-- Model of URLSearchParams.get: the first value bound to the key. -/
def getParam (ps : Params) (k : String) : Option String :=
  (ps.find? (fun e => e.1 == k)).map (fun e => e.2)

/-- Model of URLSearchParams.has. -/
def hasParam (ps : Params) (k : String) : Bool :=
  ps.any (fun e => e.1 == k)

/-- The allow-list of known simple filter keys from the loader. -/
def knownFilters : List String :=
  ["productVendor", "productType"]

/-- One iteration of the loader's for-of scan over the query parameters:
the available/known/variantOption dispatch, appending the emitted clause
and descriptor to the accumulated arrays. -/
def scanStep (acc : List FilterClause × List AppliedFilter) (e : String × String) :
    List FilterClause × List AppliedFilter :=
  if e.1 == ("available") then
    (acc.1 ++ [FilterClause.available (e.2 == ("true"))],
     acc.2 ++ [⟨some (if e.2 == ("true") then "In stock" else "Out of stock"),
       ⟨"available", e.2⟩⟩])
  else if knownFilters.contains e.1 then
    (acc.1 ++ [FilterClause.known e.1 e.2],
     acc.2 ++ [⟨some e.2, ⟨e.1, e.2⟩⟩])
  else if hasSubstr e.1.data (("variantOption").data) then
    (acc.1 ++ [FilterClause.variantOption ((jsSplit ':' e.2).headD ("")) ((jsSplit ':' e.2).get? 1)],
     acc.2 ++ [⟨(jsSplit ':' e.2).get? 1, ⟨e.1, e.2⟩⟩])
  else acc

/-- The clauses and descriptors one single parameter contributes. -/
def emitEntry (e : String × String) : List FilterClause × List AppliedFilter :=
  scanStep ([], []) e

/-- Embedding of the loader's price block: when minPrice or maxPrice is
present, each present bound is parsed with `Number(...) || 0`, one
descriptor per present bound is pushed (min first), and finally the one
combined price clause is pushed. -/
def priceFilters (ps : Params) : List FilterClause × List AppliedFilter :=
  if hasParam ps ("minPrice") || hasParam ps ("maxPrice") then
    let minDesc : List AppliedFilter :=
      if hasParam ps ("minPrice") then
        [⟨some ("Min: $" ++ jsNumToString (jsNumberOrZero ((getParam ps ("minPrice")).getD ("")))),
          ⟨"minPrice", (getParam ps ("minPrice")).getD ("")⟩⟩]
      else []
    let maxDesc : List AppliedFilter :=
      if hasParam ps ("maxPrice") then
        [⟨some ("Max: $" ++ jsNumToString (jsNumberOrZero ((getParam ps ("maxPrice")).getD ("")))),
          ⟨"maxPrice", (getParam ps ("maxPrice")).getD ("")⟩⟩]
      else []
    let pmin : Option ℚ :=
      if hasParam ps ("minPrice") then some (jsNumberOrZero ((getParam ps ("minPrice")).getD ("")))
      else none
    let pmax : Option ℚ :=
      if hasParam ps ("maxPrice") then some (jsNumberOrZero ((getParam ps ("maxPrice")).getD ("")))
      else none
    ([FilterClause.price pmin pmax], minDesc ++ maxDesc)
  else ([], [])

/-- Embedding of the loader's whole parameter translation: the for-of
scan over all entries followed by the price block. -/
def collectFilters (ps : Params) : List FilterClause × List AppliedFilter :=
  let scanned := ps.foldl scanStep ([], [])
  let pr := priceFilters ps
  (scanned.1 ++ pr.1, scanned.2 ++ pr.2)

/-- Whether a clause is a price clause. -/
def isPriceClause : FilterClause → Bool
  | .price _ _ => true
  | _ => false

/-- Spec-side reading of the price minimum: the bound is present exactly
when the parameter is, parsed with NaN and zero collapsing to zero. -/
def specPriceMin (ps : Params) : Option ℚ :=
  if hasParam ps ("minPrice") then some (jsNumberOrZero ((getParam ps ("minPrice")).getD ("")))
  else none

/-- Spec-side reading of the price maximum. -/
def specPriceMax (ps : Params) : Option ℚ :=
  if hasParam ps ("maxPrice") then some (jsNumberOrZero ((getParam ps ("maxPrice")).getD ("")))
  else none

/-- Spec-side reading of the price descriptors: one per present bound,
min before max, labeled from the parsed bound. -/
def specPriceDescriptors (ps : Params) : List AppliedFilter :=
  (if hasParam ps ("minPrice") then
    [⟨some ("Min: $" ++ jsNumToString (jsNumberOrZero ((getParam ps ("minPrice")).getD ("")))),
      ⟨"minPrice", (getParam ps ("minPrice")).getD ("")⟩⟩]
  else []) ++
  (if hasParam ps ("maxPrice") then
    [⟨some ("Max: $" ++ jsNumToString (jsNumberOrZero ((getParam ps ("maxPrice")).getD ("")))),
      ⟨"maxPrice", (getParam ps ("maxPrice")).getD ("")⟩⟩]
  else [])

/-! ## Review aggregator (product route) -/

/-- An external review record: the numeric rating field is `none` when
the JSON object lacks it, and the correlation field names the product. -/
structure Review where
  rating : Option ℚ
  product_external_id : String
deriving DecidableEq

/-- JavaScript truthiness of the rating field: absent and zero are falsy,
every other number is truthy. -/
def ratingTruthy : Option ℚ → Bool
  | none => false
  | some q => q != 0

/-- Embedding of the summation loop of getAverageRating: ratings are
added only when the field is truthy. -/
def reviewRatingSum (reviews : List Review) : ℚ :=
  reviews.foldl (fun s r => if ratingTruthy r.rating then ratAdd s (r.rating.getD 0) else s) 0

/-- A JavaScript value that is either a number or a string, as stored in
the averageRating field. -/
inductive JSValue where
  | num (q : ℚ)
  | str (s : String)
deriving DecidableEq

/-- Embedding of getAverageRating: the truthy-rating sum, then either the
toFixed(2) string of `(sum / (length * 5)) * 5` or the number 0. -/
def getAverageRating (reviews : List Review) : JSValue :=
  if 0 < reviewRatingSum reviews then
    JSValue.str (jsToFixed2
      (ratMul (ratDiv (reviewRatingSum reviews)
        (ratMul (ratOfNat reviews.length) (ratOfNat 5))) (ratOfNat 5)))
  else JSValue.num 0

/-- The review summary object built by getProductReviews. -/
structure ReviewSummary where
  reviews : List Review
  totalReviews : ℕ
  averageRating : JSValue
deriving DecidableEq

/-- Embedding of getProductReviews. -/
def getProductReviews (myData : List Review) : ReviewSummary :=
  ⟨myData, myData.length, getAverageRating myData⟩

/-- Spec-side plain sum of the rating fields of a list of records. -/
def ratingSumSpec (reviews : List Review) : ℚ :=
  (reviews.map (fun r => r.rating.getD 0)).sum

/-- Embedding of getReviewsWithID: the page source stands for the
external endpoint, `fuel` bounds the recursion depth (the source recurses
unboundedly; `none` means the fuel ran out before an empty page), `page`
and `products` are the recursion arguments.  Each round fetches one page,
returns the accumulator if the page is empty, and otherwise appends the
records whose correlation field matches and recurses on the next page. -/
def getReviewsWithID (fetchPage : ℕ → List Review) (externalID : String) :
    ℕ → ℕ → List Review → Option (List Review)
  | 0, _, _ => none
  | fuel + 1, page, products =>
    let data := fetchPage page
    if data.length == 0 then some products
    else getReviewsWithID fetchPage externalID fuel (page + 1)
      (products ++ data.filter (fun r => r.product_external_id == externalID))

/-! ## Recommended products (product route) -/

/-- A catalog product; only the id takes part in the merge logic. -/
structure Product where
  id : String
deriving DecidableEq

/-- Embedding of the dedup filter callback walk: an element at index `i`
of the full merged array is kept exactly when the first index holding its
id is `i` itself. -/
def dedupByIdAux (full : List Product) : ℕ → List Product → List Product
  | _, [] => []
  | i, y :: ys =>
    if full.findIdx (fun v2 => v2.id == y.id) == i then y :: dedupByIdAux full (i + 1) ys
    else dedupByIdAux full (i + 1) ys

/-- Embedding of `.filter((value, index, array) => array.findIndex(...) === index)`. -/
def dedupById (l : List Product) : List Product :=
  dedupByIdAux l 0 l

/-- Spec-side first-occurrence deduplication by id, carrying the set of
ids already seen. -/
def keepFirstAux (seen : List String) : List Product → List Product
  | [] => []
  | x :: xs =>
    if seen.contains x.id then keepFirstAux seen xs
    else x :: keepFirstAux (x.id :: seen) xs

/-- Model of Array.prototype.indexOf: the first index of the element, or
-1 when absent. -/
def jsIndexOf (l : List String) (x : String) : ℤ :=
  if l.contains x then (l.indexOf x : ℤ) else -1

/-- The index Array.prototype.splice resolves a possibly negative start
to: a negative start counts from the end clamped at 0, a nonnegative
start is clamped to the length. -/
def spliceStart (l : List Product) (start : ℤ) : ℕ :=
  if start < 0 then ((l.length : ℤ) + start).toNat else min start.toNat l.length

/-- Model of Array.prototype.splice(start, 1): the one element at the
resolved index is removed when it exists. -/
def spliceRemoveOne (l : List Product) (start : ℤ) : List Product :=
  l.take (spliceStart l start) ++ l.drop (spliceStart l start + 1)

/-- Embedding of getRecommendedProducts after the storefront query: the
fetched recommended list is overwritten with the empty array, the
additional nodes are concatenated onto it and deduplicated by id, and
splice removes the element at indexOf(productId) (which is -1 when the
product is absent). -/
def getRecommendedProducts (recommendedFetched additional : List Product)
    (productId : String) : List Product :=
  let recommended : List Product := []
  let mergedProducts := dedupById (recommended ++ additional)
  let originalProduct := jsIndexOf (mergedProducts.map (fun p => p.id)) productId
  spliceRemoveOne mergedProducts originalProduct

/-! ## Helper lemmas -/

theorem ratOfNat_eq (n : ℕ) : ratOfNat n = (n : ℚ) := by
  simp [ratOfNat, Rat.mkRat_eq_div]

theorem ratNeg_eq (a : ℚ) : ratNeg a = -a := by
  rw [ratNeg, Rat.mkRat_eq_div]
  push_cast
  rw [neg_div, Rat.num_div_den]

theorem ratMul_eq (a b : ℚ) : ratMul a b = a * b := by
  rw [ratMul, Rat.mkRat_eq_div]
  push_cast
  rw [← div_mul_div_comm, Rat.num_div_den, Rat.num_div_den]

theorem ratAdd_eq (a b : ℚ) : ratAdd a b = a + b := by
  rw [ratAdd, Rat.mkRat_eq_div]
  have had : ((a.den : ℚ)) ≠ 0 := by exact_mod_cast a.den_nz
  have hbd : ((b.den : ℚ)) ≠ 0 := by exact_mod_cast b.den_nz
  have ha' : (a.num : ℚ) = a * a.den := (div_eq_iff had).mp (Rat.num_div_den a)
  have hb' : (b.num : ℚ) = b * b.den := (div_eq_iff hbd).mp (Rat.num_div_den b)
  push_cast
  rw [div_eq_iff (mul_ne_zero had hbd), ha', hb']
  ring

theorem ratDiv_eq (a b : ℚ) : ratDiv a b = a / b := by
  rw [ratDiv, Rat.divInt_eq_div]
  rcases eq_or_ne b 0 with rfl | hb
  · simp
  · have had : ((a.den : ℚ)) ≠ 0 := by exact_mod_cast a.den_nz
    have hbd : ((b.den : ℚ)) ≠ 0 := by exact_mod_cast b.den_nz
    have hbn : ((b.num : ℚ)) ≠ 0 := by exact_mod_cast Rat.num_ne_zero.mpr hb
    have ha' : (a.num : ℚ) = a * a.den := (div_eq_iff had).mp (Rat.num_div_den a)
    have hb' : (b.num : ℚ) = b * b.den := (div_eq_iff hbd).mp (Rat.num_div_den b)
    push_cast
    rw [div_eq_div_iff (mul_ne_zero hbn had) hb, ha', hb']
    ring

theorem scanStep_eq_append (acc : List FilterClause × List AppliedFilter) (e : String × String) :
    scanStep acc e = (acc.1 ++ (emitEntry e).1, acc.2 ++ (emitEntry e).2) := by
  unfold emitEntry scanStep
  split_ifs <;> simp

theorem foldl_scanStep (ps : Params) :
    ∀ acc : List FilterClause × List AppliedFilter,
      ps.foldl scanStep acc =
        (acc.1 ++ ps.flatMap (fun e => (emitEntry e).1),
         acc.2 ++ ps.flatMap (fun e => (emitEntry e).2)) := by
  induction ps with
  | nil => intro acc; simp
  | cons e ps ih =>
    intro acc
    rw [List.foldl_cons, scanStep_eq_append, ih]
    simp

theorem collectFilters_eq_bind (ps : Params) :
    collectFilters ps =
      (ps.flatMap (fun e => (emitEntry e).1) ++ (priceFilters ps).1,
       ps.flatMap (fun e => (emitEntry e).2) ++ (priceFilters ps).2) := by
  unfold collectFilters
  rw [foldl_scanStep]
  simp

/-! ## Claims -/

/-- C5: the sort-token lookup is a total function on strings including
the absent case; "price-high-low" maps to PRICE reversed, and every
unrecognized or absent token maps to RELEVANCE unreversed.  Totality is
witnessed by `getSortValuesFromParam` being a Lean function on all of
`Option String`, so no input produces an error. -/
theorem c5_sort_lookup :
    getSortValuesFromParam (some ("price-high-low")) = ⟨SortKeyT.PRICE, true⟩ ∧
    getSortValuesFromParam none = ⟨SortKeyT.RELEVANCE, false⟩ ∧
    ∀ s : String,
      s ∉ (["price-high-low", "price-low-high", "best-selling", "newest", "featured"] : List String) →
      getSortValuesFromParam (some s) = ⟨SortKeyT.RELEVANCE, false⟩ := by
  refine ⟨rfl, rfl, fun s hs => ?_⟩
  simp only [List.mem_cons, List.not_mem_nil, or_false, not_or] at hs
  obtain ⟨h1, h2, h3, h4, h5⟩ := hs
  simp [getSortValuesFromParam, h1, h2, h3, h4, h5]

/-- Witness for C5 at the unknown token "bogus". -/
theorem c5_sort_lookup_witness :
    ("bogus" : String) ∉
      (["price-high-low", "price-low-high", "best-selling", "newest", "featured"] : List String) ∧
    getSortValuesFromParam (some ("bogus")) = ⟨SortKeyT.RELEVANCE, false⟩ :=
  ⟨by decide, c5_sort_lookup.2.2 ("bogus") (by decide)⟩

/-- C6: a parameter with the availability key emits an available clause
that is true exactly when the value is the literal "true", and a
descriptor labeled "In stock" for "true" and "Out of stock" otherwise;
this is what one such parameter contributes, and what the whole
translator produces on a query holding just that parameter. -/
theorem c6_availability (v : String) :
    emitEntry ("available", v) =
      ([FilterClause.available (v == ("true"))],
       [⟨some (if v == ("true") then "In stock" else "Out of stock"), ⟨"available", v⟩⟩]) ∧
    collectFilters [("available", v)] =
      ([FilterClause.available (v == ("true"))],
       [⟨some (if v == ("true") then "In stock" else "Out of stock"), ⟨"available", v⟩⟩]) := by
  constructor
  · unfold emitEntry scanStep
    simp
  · unfold collectFilters priceFilters hasParam
    rw [foldl_scanStep]
    unfold emitEntry scanStep
    simp

/-- C7: a parameter whose key is in the known simple-filter allow-list
emits both the `{key: value}` clause and a descriptor whose label is the
raw parameter value. -/
theorem c7_known_filters (key v : String) (h : key ∈ knownFilters) :
    emitEntry (key, v) =
      ([FilterClause.known key v], [⟨some v, ⟨key, v⟩⟩]) ∧
    collectFilters [(key, v)] =
      ([FilterClause.known key v], [⟨some v, ⟨key, v⟩⟩]) := by
  have hk : key = "productVendor" ∨ key = "productType" := by
    simpa [knownFilters] using h
  constructor
  · unfold emitEntry scanStep
    rcases hk with rfl | rfl <;> simp [knownFilters]
  · unfold collectFilters priceFilters hasParam
    rw [foldl_scanStep]
    unfold emitEntry scanStep
    rcases hk with rfl | rfl <;> simp [knownFilters]

/-- Witness for C7 at productVendor=Acme. -/
theorem c7_known_filters_witness :
    ("productVendor" : String) ∈ knownFilters ∧
    collectFilters [("productVendor", "Acme")] =
      ([FilterClause.known ("productVendor") ("Acme")],
       [⟨some ("Acme"), ⟨"productVendor", "Acme"⟩⟩]) :=
  ⟨by decide, (c7_known_filters ("productVendor") ("Acme") (by decide)).2⟩

/-- C8: on every query multi-map the clause list and the descriptor list
are each the concatenation, in encounter order, of what each parameter
contributes, with the price clause and price descriptors appended after
the whole per-key scan. -/
theorem c8_output_order (ps : Params) :
    (collectFilters ps).1 = ps.flatMap (fun e => (emitEntry e).1) ++ (priceFilters ps).1 ∧
    (collectFilters ps).2 = ps.flatMap (fun e => (emitEntry e).2) ++ (priceFilters ps).2 := by
  rw [collectFilters_eq_bind]
  exact ⟨rfl, rfl⟩

theorem splitOnChar_cons (c x : Char) (xs : List Char) :
    splitOnChar c (x :: xs) =
      if x = c then [] :: splitOnChar c xs
      else (x :: (splitOnChar c xs).headD []) :: (splitOnChar c xs).tail := rfl

theorem splitOnChar_no_sep (c : Char) (a : List Char) (ha : c ∉ a) :
    splitOnChar c a = [a] := by
  induction a with
  | nil => rfl
  | cons x xs ih =>
    simp only [List.mem_cons, not_or] at ha
    rw [splitOnChar_cons, if_neg (fun h => ha.1 h.symm), ih ha.2]
    rfl

theorem splitOnChar_sep_append (c : Char) (a : List Char) (ha : c ∉ a) (rest : List Char) :
    splitOnChar c (a ++ c :: rest) = a :: splitOnChar c rest := by
  induction a with
  | nil =>
    rw [List.nil_append, splitOnChar_cons, if_pos rfl]
  | cons x xs ih =>
    simp only [List.mem_cons, not_or] at ha
    rw [List.cons_append, splitOnChar_cons, if_neg (fun h => ha.1 h.symm), ih ha.2]
    rfl

theorem emitEntry_no_price (e : String × String) :
    (emitEntry e).1.filter isPriceClause = [] := by
  unfold emitEntry scanStep
  split_ifs <;> simp [isPriceClause]

theorem flatMap_no_price (ps : Params) :
    (ps.flatMap (fun e => (emitEntry e).1)).filter isPriceClause = [] := by
  induction ps with
  | nil => rfl
  | cons e ps ih =>
    rw [List.flatMap_cons, List.filter_append, emitEntry_no_price, ih]
    rfl

theorem collectFilters_variant (key v : String)
    (hk : hasSubstr key.data (("variantOption").data) = true) :
    collectFilters [(key, v)] =
      ([FilterClause.variantOption ((jsSplit ':' v).headD ("")) ((jsSplit ':' v).get? 1)],
       [⟨(jsSplit ':' v).get? 1, ⟨key, v⟩⟩]) := by
  have hav : key ≠ "available" := by rintro rfl; exact absurd hk (by decide)
  have hpv : key ≠ "productVendor" := by rintro rfl; exact absurd hk (by decide)
  have hpt : key ≠ "productType" := by rintro rfl; exact absurd hk (by decide)
  have hmn : key ≠ "minPrice" := by rintro rfl; exact absurd hk (by decide)
  have hmx : key ≠ "maxPrice" := by rintro rfl; exact absurd hk (by decide)
  unfold collectFilters priceFilters hasParam
  rw [foldl_scanStep]
  unfold emitEntry scanStep
  simp [knownFilters, hav, hpv, hpt, hmn, hmx, hk]

/-- C3 counterexample: minPrice=-5 parses to the negative bound -5, so
the parsed bound is not a non-negative number as the claim states. -/
theorem c3_counterexample :
    (collectFilters [("minPrice", "-5")]).1 = [FilterClause.price (some (-5)) none] ∧
    ¬ (0 : ℚ) ≤ -5 := by decide

/-- C3 (amended): when a minimum-price or maximum-price parameter is
present, each present bound is parsed as a number — NaN and zero parses
default to zero, while a negative parse is kept — the translator emits
exactly one combined price clause carrying exactly the bounds present
(appended after the per-key scan), and one applied-filter descriptor per
present bound labeled "Min: $<min>" / "Max: $<max>". -/
theorem c3_amended (ps : Params)
    (h : hasParam ps ("minPrice") = true ∨ hasParam ps ("maxPrice") = true) :
    (collectFilters ps).1 =
      ps.flatMap (fun e => (emitEntry e).1) ++
        [FilterClause.price (specPriceMin ps) (specPriceMax ps)] ∧
    (collectFilters ps).1.filter isPriceClause =
      [FilterClause.price (specPriceMin ps) (specPriceMax ps)] ∧
    (collectFilters ps).2 =
      ps.flatMap (fun e => (emitEntry e).2) ++ specPriceDescriptors ps := by
  have hcond : (hasParam ps ("minPrice") || hasParam ps ("maxPrice")) = true := by
    rcases h with h | h <;> simp [h]
  have hpf : priceFilters ps =
      ([FilterClause.price (specPriceMin ps) (specPriceMax ps)], specPriceDescriptors ps) := by
    unfold priceFilters specPriceMin specPriceMax specPriceDescriptors
    rw [if_pos hcond]
  have h1 := collectFilters_eq_bind ps
  rw [hpf] at h1
  refine ⟨congrArg Prod.fst h1 ▸ rfl, ?_, congrArg Prod.snd h1 ▸ rfl⟩
  rw [congrArg Prod.fst h1]
  rw [List.filter_append, flatMap_no_price]
  rfl

/-- Witness for C3 at the unparsable minPrice=abc: the parsed minimum
defaults to 0 and the descriptor reads "Min: $0". -/
theorem c3_amended_witness :
    (hasParam [("minPrice", "abc")] ("minPrice") = true ∨
      hasParam [("minPrice", "abc")] ("maxPrice") = true) ∧
    (collectFilters [("minPrice", "abc")]).1 = [FilterClause.price (some 0) none] ∧
    (collectFilters [("minPrice", "abc")]).2 =
      [⟨some ("Min: $0"), ⟨"minPrice", "abc"⟩⟩] := by
  refine ⟨Or.inl (by decide), ?_, ?_⟩
  · have h := (c3_amended [("minPrice", "abc")] (Or.inl (by decide))).1
    rw [h]; decide
  · have h := (c3_amended [("minPrice", "abc")] (Or.inl (by decide))).2.2
    rw [h]; decide

/-- C4 counterexample: the value "Size:M:L" contains two colons; the code
splits on every colon and destructures the first two components, so the
emitted optionValue is "M", not "M:L" (everything after the first colon)
as the claim states; the descriptor label likewise reads "M". -/
theorem c4_counterexample :
    collectFilters [("variantOption", "Size:M:L")] =
      ([FilterClause.variantOption ("Size") (some ("M"))],
       [⟨some ("M"), ⟨"variantOption", "Size:M:L"⟩⟩]) ∧
    (collectFilters [("variantOption", "Size:M:L")]).1 ≠
      [FilterClause.variantOption ("Size") (some ("M:L"))] := by decide

/-- C4 (amended): a parameter whose key contains the variant-option
marker has its value split at every colon, and the first two components
become (optionName, optionValue) — for a value with more than one colon
the optionValue is the text between the first and second colons; the
clause carries that name and value and the descriptor label is the
optionValue with the option name omitted.  A colon-free value leaves the
optionValue undefined (`none`). -/
theorem c4_amended (key : String)
    (hk : hasSubstr key.data (("variantOption").data) = true) :
    (∀ a b cTail : String, (':' : Char) ∉ a.data → (':' : Char) ∉ b.data →
      collectFilters [(key, a ++ ":" ++ b ++ ":" ++ cTail)] =
        ([FilterClause.variantOption a (some b)],
         [⟨some b, ⟨key, a ++ ":" ++ b ++ ":" ++ cTail⟩⟩])) ∧
    (∀ a b : String, (':' : Char) ∉ a.data → (':' : Char) ∉ b.data →
      collectFilters [(key, a ++ ":" ++ b)] =
        ([FilterClause.variantOption a (some b)],
         [⟨some b, ⟨key, a ++ ":" ++ b⟩⟩])) ∧
    (∀ a : String, (':' : Char) ∉ a.data →
      collectFilters [(key, a)] =
        ([FilterClause.variantOption a none], [⟨none, ⟨key, a⟩⟩])) := by
  refine ⟨fun a b cTail ha hb => ?_, fun a b ha hb => ?_, fun a ha => ?_⟩
  · rw [collectFilters_variant key _ hk]
    have hd : (a ++ ":" ++ b ++ ":" ++ cTail).data =
        a.data ++ ':' :: (b.data ++ ':' :: cTail.data) := by
      simp [String.data_append]
    have hsplit : jsSplit ':' (a ++ ":" ++ b ++ ":" ++ cTail) =
        a :: b :: (splitOnChar ':' cTail.data).map (fun cs => ⟨cs⟩) := by
      unfold jsSplit
      rw [hd, splitOnChar_sep_append ':' a.data ha, splitOnChar_sep_append ':' b.data hb]
      rfl
    rw [hsplit]
    rfl
  · rw [collectFilters_variant key _ hk]
    have hd : (a ++ ":" ++ b).data = a.data ++ ':' :: b.data := by
      simp [String.data_append]
    have hsplit : jsSplit ':' (a ++ ":" ++ b) = [a, b] := by
      unfold jsSplit
      rw [hd, splitOnChar_sep_append ':' a.data ha, splitOnChar_no_sep ':' b.data hb]
      rfl
    rw [hsplit]
    rfl
  · rw [collectFilters_variant key _ hk]
    have hsplit : jsSplit ':' a = [a] := by
      unfold jsSplit
      rw [splitOnChar_no_sep ':' a.data ha]
      rfl
    rw [hsplit]
    rfl

/-- Witness for C4 (amended) at variantOption=Color:Red:Dark: the
optionValue is the middle component "Red". -/
theorem c4_amended_witness :
    hasSubstr (("variantOption").data) (("variantOption").data) = true ∧
    collectFilters [("variantOption", "Color:Red:Dark")] =
      ([FilterClause.variantOption ("Color") (some ("Red"))],
       [⟨some ("Red"), ⟨"variantOption", "Color:Red:Dark"⟩⟩]) := by
  refine ⟨by decide, ?_⟩
  have h := (c4_amended ("variantOption") (by decide)).1 ("Color") ("Red") ("Dark")
    (by decide) (by decide)
  have e : ("Color" : String) ++ ":" ++ "Red" ++ ":" ++ "Dark" = "Color:Red:Dark" := by decide
  rw [e] at h
  exact h

theorem getD_zero_of_falsy (o : Option ℚ) (h : ratingTruthy o = false) :
    o.getD 0 = 0 := by
  cases o with
  | none => rfl
  | some q => simpa [ratingTruthy] using h

theorem reviewRatingSum_aux (l : List Review) :
    ∀ s : ℚ,
      List.foldl (fun s r => if ratingTruthy r.rating then ratAdd s (r.rating.getD 0) else s) s l =
        s + ((l.filter (fun r => ratingTruthy r.rating)).map (fun r => r.rating.getD 0)).sum := by
  induction l with
  | nil => intro s; simp
  | cons r l ih =>
    intro s
    rw [List.foldl_cons]
    rcases h : ratingTruthy r.rating with _ | _
    · rw [if_neg (by simp [h]), ih, List.filter_cons_of_neg (by simp [h])]
    · rw [if_pos (by simp [h]), ih, List.filter_cons_of_pos (by simp [h]), ratAdd_eq]
      rw [List.map_cons, List.sum_cons]
      ring

theorem reviewRatingSum_filter (l : List Review) :
    reviewRatingSum l =
      ((l.filter (fun r => ratingTruthy r.rating)).map (fun r => r.rating.getD 0)).sum := by
  unfold reviewRatingSum
  rw [reviewRatingSum_aux]
  ring

theorem ratingSumSpec_eq_filter (l : List Review) :
    ratingSumSpec l =
      ((l.filter (fun r => ratingTruthy r.rating)).map (fun r => r.rating.getD 0)).sum := by
  induction l with
  | nil => rfl
  | cons r l ih =>
    unfold ratingSumSpec at *
    rcases h : ratingTruthy r.rating with _ | _
    · rw [List.map_cons, List.sum_cons, List.filter_cons_of_neg (by simp [h]), ← ih,
        getD_zero_of_falsy r.rating h]
      ring
    · rw [List.map_cons, List.sum_cons, List.filter_cons_of_pos (by simp [h]),
        List.map_cons, List.sum_cons, ← ih]

theorem reviewRatingSum_eq (l : List Review) : reviewRatingSum l = ratingSumSpec l :=
  (reviewRatingSum_filter l).trans (ratingSumSpec_eq_filter l).symm

theorem avg_arith_eq (s : ℚ) (n : ℕ) :
    ratMul (ratDiv s (ratMul (ratOfNat n) (ratOfNat 5))) (ratOfNat 5) =
      s / ((n : ℚ) * 5) * 5 := by
  rw [ratMul_eq, ratDiv_eq, ratMul_eq, ratOfNat_eq, ratOfNat_eq]
  norm_num

/-- C1: for every list of review records (each carrying a rating field),
the summary's totalReviews is the list length; when the rating sum is
positive the averageRating is the string rendering, with two fraction
digits, of (sum / (count * 5)) * 5; and when the count is zero or the
rating sum is zero the averageRating is the number 0, not a string. -/
theorem c1_review_summary (l : List Review) (h : ∀ r ∈ l, r.rating.isSome) :
    (getProductReviews l).totalReviews = l.length ∧
    (0 < ratingSumSpec l →
      (getProductReviews l).averageRating =
        JSValue.str (jsToFixed2 (ratingSumSpec l / ((l.length : ℚ) * 5) * 5))) ∧
    (l.length = 0 ∨ ratingSumSpec l = 0 →
      (getProductReviews l).averageRating = JSValue.num 0) := by
  refine ⟨rfl, ?_, ?_⟩
  · intro hpos
    show getAverageRating l = _
    unfold getAverageRating
    rw [reviewRatingSum_eq, if_pos hpos, avg_arith_eq]
  · intro hzero
    show getAverageRating l = _
    unfold getAverageRating
    rw [reviewRatingSum_eq]
    refine if_neg ?_
    rcases hzero with h0 | h0
    · rw [List.length_eq_zero.mp h0]
      exact lt_irrefl 0
    · rw [h0]
      exact lt_irrefl 0

/-- Witness for C1 at ratings [5, 4, 3]: the sum is 12, the count is 3,
and (12 / 15) * 5 renders as the string "4.00". -/
theorem c1_review_summary_witness :
    (∀ r ∈ ([⟨some 5, "p"⟩, ⟨some 4, "p"⟩, ⟨some 3, "p"⟩] : List Review), r.rating.isSome) ∧
    (0 : ℚ) < ratingSumSpec [⟨some 5, "p"⟩, ⟨some 4, "p"⟩, ⟨some 3, "p"⟩] ∧
    (getProductReviews [⟨some 5, "p"⟩, ⟨some 4, "p"⟩, ⟨some 3, "p"⟩]).averageRating =
      JSValue.str "4.00" := by
  refine ⟨by decide, ?_, ?_⟩
  · rw [← reviewRatingSum_eq]
    decide
  · have h := (c1_review_summary [⟨some 5, "p"⟩, ⟨some 4, "p"⟩, ⟨some 3, "p"⟩] (by decide)).2.1
      (by rw [← reviewRatingSum_eq]; decide)
    rw [h, ← avg_arith_eq, ← reviewRatingSum_eq]
    decide

/-- C10: getAverageRating is total on every record list: falsy rating
fields (absent or zero) contribute nothing to the sum yet the denominator
is the full list length; the result is either the number 0 or, when the
truthy-rating sum is positive (which forces a positive length, so the
division is well defined and never NaN), the formatted string; and when
no record has a truthy rating the result is the number 0. -/
theorem c10_average_total (l : List Review) :
    reviewRatingSum l =
      ((l.filter (fun r => ratingTruthy r.rating)).map (fun r => r.rating.getD 0)).sum ∧
    ((∀ r ∈ l, ratingTruthy r.rating = false) → getAverageRating l = JSValue.num 0) ∧
    (getAverageRating l = JSValue.num 0 ∨
      (0 < reviewRatingSum l ∧ 0 < l.length ∧
        getAverageRating l =
          JSValue.str (jsToFixed2 (reviewRatingSum l / ((l.length : ℚ) * 5) * 5)))) := by
  refine ⟨reviewRatingSum_filter l, ?_, ?_⟩
  · intro hfalsy
    unfold getAverageRating
    refine if_neg ?_
    rw [reviewRatingSum_filter, List.filter_eq_nil_iff.mpr (by simpa using hfalsy)]
    exact lt_irrefl 0
  · by_cases hpos : 0 < reviewRatingSum l
    · refine Or.inr ⟨hpos, ?_, ?_⟩
      · cases l with
        | nil => exact absurd hpos (by decide)
        | cons r l => exact Nat.succ_pos _
      · unfold getAverageRating
        rw [if_pos hpos, avg_arith_eq]
    · refine Or.inl ?_
      unfold getAverageRating
      exact if_neg hpos

/-- Witness for C10 at a list whose ratings are absent and zero: nothing
is summed and the result is the number 0. -/
theorem c10_average_total_witness :
    (∀ r ∈ ([⟨none, "x"⟩, ⟨some 0, "y"⟩] : List Review), ratingTruthy r.rating = false) ∧
    getAverageRating [⟨none, "x"⟩, ⟨some 0, "y"⟩] = JSValue.num 0 :=
  ⟨by decide, (c10_average_total [⟨none, "x"⟩, ⟨some 0, "y"⟩]).2.1 (by decide)⟩

theorem getReviewsWithID_succ (f : ℕ → List Review) (id : String) (fuel page : ℕ)
    (acc : List Review) :
    getReviewsWithID f id (fuel + 1) page acc =
      if (f page).length == 0 then some acc
      else getReviewsWithID f id fuel (page + 1)
        (acc ++ (f page).filter (fun r => r.product_external_id == id)) := rfl

theorem getReviewsWithID_loop (fetchPage : ℕ → List Review) (externalID : String) (N : ℕ)
    (hN : fetchPage N = []) (hfirst : ∀ p, 1 ≤ p → p < N → fetchPage p ≠ []) :
    ∀ fuel page acc, 1 ≤ page → page ≤ N → N - page < fuel →
      getReviewsWithID fetchPage externalID fuel page acc =
        some (acc ++ (List.range' page (N - page)).flatMap
          (fun p => (fetchPage p).filter (fun r => r.product_external_id == externalID))) := by
  intro fuel
  induction fuel with
  | zero =>
    intro page acc h1 h2 h3
    exact absurd h3 (Nat.not_lt_zero _)
  | succ fuel ih =>
    intro page acc h1 h2 h3
    rw [getReviewsWithID_succ]
    by_cases hpN : page = N
    · subst hpN
      rw [hN]
      simp
    · have hlt : page < N := lt_of_le_of_ne h2 hpN
      have hne : fetchPage page ≠ [] := hfirst page h1 hlt
      rw [if_neg (by simpa [List.length_eq_zero] using hne)]
      rw [ih (page + 1) _ (by omega) (by omega) (by omega)]
      have hr : N - page = (N - (page + 1)) + 1 := by omega
      rw [hr, List.range'_succ, List.flatMap_cons]
      simp [List.append_assoc]

/-- C2: for every product identifier and every page source with a first
empty page N (pages 1..N-1 nonempty, page N empty), the aggregator run
from page 1 with enough fuel terminates at that first empty page and
returns exactly the records of pages 1 through N-1, filtered to those
whose correlation field equals the identifier, in page order and
within-page order. -/
theorem c2_pagination (fetchPage : ℕ → List Review) (externalID : String) (N fuel : ℕ)
    (h1 : 1 ≤ N) (hN : fetchPage N = [])
    (hfirst : ∀ p, 1 ≤ p → p < N → fetchPage p ≠ []) (hfuel : N ≤ fuel) :
    getReviewsWithID fetchPage externalID fuel 1 [] =
      some ((List.range' 1 (N - 1)).flatMap
        (fun p => (fetchPage p).filter (fun r => r.product_external_id == externalID))) := by
  have h := getReviewsWithID_loop fetchPage externalID N hN hfirst fuel 1 [] le_rfl h1 (by omega)
  simpa using h

/-- Witness for C2 on a two-page source (page 1 holds one matching and
one non-matching record, page 2 is empty). -/
theorem c2_pagination_witness :
    getReviewsWithID (fun p => if p == 1 then [⟨some 5, "a"⟩, ⟨some 3, "b"⟩] else [])
      ("a") 2 1 [] = some [⟨some 5, "a"⟩] := by
  have hf : ∀ p, 1 ≤ p → p < 2 →
      (fun p => if p == 1 then ([⟨some 5, "a"⟩, ⟨some 3, "b"⟩] : List Review) else []) p ≠ [] := by
    intro p hp1 hp2
    have hp : p = 1 := by omega
    subst hp
    decide
  have h := c2_pagination
    (fun p => if p == 1 then [⟨some 5, "a"⟩, ⟨some 3, "b"⟩] else [])
    ("a") 2 2 (by omega) (by decide) hf (by omega)
  rw [h]
  decide

theorem beqComm (a b : String) : (a == b) = (b == a) := by
  by_cases h : a = b
  · subst h; rfl
  · simp [beq_iff_eq, h, Ne.symm h]

theorem indexOf_eq_findIdx (l : List String) (a : String) :
    l.indexOf a = l.findIdx (fun s => s == a) := by
  induction l with
  | nil => rfl
  | cons x xs ih =>
    rw [List.indexOf_cons, List.findIdx_cons]
    cases h : x == a <;> simp [h, ih]

theorem findIdx_map_ids (d : List Product) (x : String) :
    (d.map (fun p => p.id)).findIdx (fun s => s == x) = d.findIdx (fun p => p.id == x) := by
  induction d with
  | nil => rfl
  | cons p d ih =>
    rw [List.map_cons, List.findIdx_cons, List.findIdx_cons]
    cases h : p.id == x <;> simp [h, ih]

theorem dedupByIdAux_cons (full : List Product) (i : ℕ) (y : Product) (ys : List Product) :
    dedupByIdAux full i (y :: ys) =
      if full.findIdx (fun v2 => v2.id == y.id) == i then y :: dedupByIdAux full (i + 1) ys
      else dedupByIdAux full (i + 1) ys := rfl

theorem dedupByIdAux_shift (x : Product) (xs : List Product) :
    ∀ ys j, dedupByIdAux (x :: xs) (j + 1) ys =
      (dedupByIdAux xs j ys).filter (fun y => !(x.id == y.id)) := by
  intro ys
  induction ys with
  | nil => intro j; rfl
  | cons y ys ih =>
    intro j
    rw [dedupByIdAux_cons, dedupByIdAux_cons, List.findIdx_cons]
    cases hpx : x.id == y.id with
    | true =>
      rw [if_neg (by simp [hpx])]
      rw [ih (j + 1)]
      cases hfind : xs.findIdx (fun v2 => v2.id == y.id) == j with
      | true => rw [if_pos (by simp [hfind]), List.filter_cons_of_neg (by simp [hpx])]
      | false => rw [if_neg (by simp [hfind])]
    | false =>
      cases hfind : xs.findIdx (fun v2 => v2.id == y.id) == j with
      | true =>
        have h1 : (xs.findIdx (fun v2 => v2.id == y.id) + 1 == j + 1) = true := by
          simp [beq_iff_eq] at hfind ⊢
          omega
        rw [if_pos (by simp [hpx, h1]), if_pos (by simp [hfind])]
        rw [List.filter_cons_of_pos (by simp [hpx]), ih (j + 1)]
      | false =>
        have h1 : (xs.findIdx (fun v2 => v2.id == y.id) + 1 == j + 1) = false := by
          simp [beq_iff_eq] at hfind ⊢
          omega
        rw [if_neg (by simp [hpx, h1]), if_neg (by simp [hfind]), ih (j + 1)]

theorem dedupById_cons (x : Product) (xs : List Product) :
    dedupById (x :: xs) = x :: (dedupById xs).filter (fun y => !(x.id == y.id)) := by
  unfold dedupById
  rw [dedupByIdAux_cons, List.findIdx_cons]
  rw [if_pos (by simp)]
  rw [dedupByIdAux_shift]

theorem keepFirstAux_cons (seen : List String) (x : Product) (xs : List Product) :
    keepFirstAux seen (x :: xs) =
      if seen.contains x.id then keepFirstAux seen xs
      else x :: keepFirstAux (x.id :: seen) xs := rfl

theorem keepFirstAux_eq (l : List Product) :
    ∀ seen, keepFirstAux seen l = (dedupById l).filter (fun y => !(seen.contains y.id)) := by
  induction l with
  | nil => intro seen; rfl
  | cons x xs ih =>
    intro seen
    rw [dedupById_cons, keepFirstAux_cons]
    cases hseen : seen.contains x.id with
    | false =>
      rw [if_neg (Bool.false_ne_true), ih (x.id :: seen)]
      rw [List.filter_cons]
      simp only [hseen, Bool.not_false, if_true]
      rw [List.filter_filter]
      refine congrArg _ (List.filter_congr fun y hy => ?_)
      rw [List.contains_cons, beqComm y.id x.id]
      cases hxy : x.id == y.id <;> cases hys : seen.contains y.id <;> rfl
    | true =>
      rw [if_pos rfl, ih seen]
      rw [List.filter_cons]
      simp only [hseen, Bool.not_true]
      rw [if_neg (Bool.false_ne_true), List.filter_filter]
      refine List.filter_congr fun y hy => ?_
      cases hxy : x.id == y.id
      · cases hys : seen.contains y.id <;> rfl
      · have hy' : seen.contains y.id = true := by
          rw [← eq_of_beq hxy]
          exact hseen
        rw [hy']
        rfl

theorem splice_neg_one (l : List Product) : spliceRemoveOne l (-1) = l.dropLast := by
  unfold spliceRemoveOne spliceStart
  rw [if_pos (by decide : (-1 : ℤ) < 0)]
  cases l with
  | nil => rfl
  | cons x xs =>
    have hs : (((x :: xs).length : ℤ) + -1).toNat = xs.length := by
      rw [List.length_cons]
      omega
    rw [hs, List.dropLast_eq_take]
    have hd : (x :: xs).drop (xs.length + 1) = [] := by
      have := List.drop_length (x :: xs)
      rwa [List.length_cons] at this
    rw [hd, List.append_nil, List.length_cons]
    rfl

theorem splice_found (l : List Product) (i : ℕ) (hi : i < l.length) :
    spliceRemoveOne l (i : ℤ) = l.eraseIdx i := by
  unfold spliceRemoveOne spliceStart
  rw [if_neg (by omega : ¬((i : ℤ) < 0)), Int.toNat_natCast, min_eq_left hi.le]
  exact (List.eraseIdx_eq_take_drop_succ l i).symm

/-- C9: getRecommendedProducts returns the additional product list
deduplicated by id keeping first occurrences (the fetched recommended
list is discarded by the reassignment to the empty array, so it never
influences the result), with the product whose id equals productId
removed when it occurs, and the last element removed otherwise (indexOf
yields -1 and splice(-1, 1) drops the final element). -/
theorem c9_recommended (recommendedFetched additional : List Product) (productId : String) :
    getRecommendedProducts recommendedFetched additional productId =
      (if ((dedupById additional).map (fun p => p.id)).contains productId then
        (dedupById additional).eraseIdx
          ((dedupById additional).findIdx (fun p => p.id == productId))
      else (dedupById additional).dropLast) ∧
    dedupById additional = keepFirstAux [] additional := by
  constructor
  · show spliceRemoveOne (dedupById additional)
      (jsIndexOf ((dedupById additional).map (fun p => p.id)) productId) = _
    unfold jsIndexOf
    by_cases hmem : ((dedupById additional).map (fun p => p.id)).contains productId = true
    · rw [if_pos hmem, if_pos hmem]
      have hmem' : productId ∈ (dedupById additional).map (fun p => p.id) :=
        List.elem_iff.mp hmem
      have hlt : ((dedupById additional).map (fun p => p.id)).indexOf productId <
          ((dedupById additional).map (fun p => p.id)).length :=
        List.indexOf_lt_length.mpr hmem'
      rw [List.length_map] at hlt
      rw [splice_found _ _ hlt, indexOf_eq_findIdx, findIdx_map_ids]
    · rw [if_neg hmem, if_neg hmem, splice_neg_one]
  · rw [keepFirstAux_eq]
    show dedupById additional = List.filter (fun _ => true) (dedupById additional)
    rw [List.filter_true]
